import Mathlib

/-!
Verification development for `crawler_bot.py`, a Telegram link-crawler:
link extraction, URL normalization, and deduplicated persistence.

The Python source is shallowly embedded below.  Strings are modelled as
`List Char` (Python `str` is a sequence of code points, exactly what
`String.toList` yields); Python's `urllib.parse.urlparse` is embedded from
the CPython 3.11 implementation (`urlsplit` + params splitting), restricted
to the call shape used by the source (`scheme=''`, `allow_fragments=True`);
the exceptional paths of `urlsplit` (unbalanced IPv6 brackets inside a
netloc, non-NFKC non-ASCII netlocs) are outside the modelled fragment —
they can only trigger on a non-empty netloc containing such characters,
which no statement below relies on.
-/

namespace CrawlerBot

/-! ## Python string primitives (on `List Char`) -/

/-- `s.rstrip("/")`: remove every trailing `'/'`. -/
def rstripSlash (s : List Char) : List Char :=
  (s.reverse.dropWhile (fun c => c = '/')).reverse

/-- Python `str.isdigit()` for the ASCII fragment: non-empty and all digits. -/
def pyIsDigit (s : List Char) : Bool :=
  !s.isEmpty && s.all Char.isDigit

/-- Python substring containment `needle in hay`. -/
def pyInStr (needle : List Char) : List Char → Bool
  | [] => needle.isPrefixOf []
  | c :: cs => needle.isPrefixOf (c :: cs) || pyInStr needle cs

/-- Python `str.split(sep)` for a one-character separator `c`
(no maximum split count): `"".split(c) = [""]`. -/
def pySplitChar (c : Char) : List Char → List (List Char)
  | [] => [[]]
  | x :: xs =>
    let r := pySplitChar c xs
    if x = c then [] :: r
    else
      match r with
      | h :: t => (x :: h) :: t
      | [] => [[x]]

/-- Index of the last occurrence of `c` in `s` (Python `str.rfind`),
`none` when absent. -/
def pyRFindChar (c : Char) (s : List Char) : Option Nat :=
  (s.reverse.findIdx? (fun x => x = c)).map (fun k => s.length - 1 - k)

/-- Index of the first occurrence of `c` in `s` at or after `start`
(Python `str.find(c, start)`), `none` when absent. -/
def pyFindCharFrom (c : Char) (s : List Char) (start : Nat) : Option Nat :=
  ((s.drop start).findIdx? (fun x => x = c)).map (fun k => start + k)

/-! ## `urllib.parse` embedding (CPython 3.11) -/

/-- `urllib.parse.scheme_chars`. -/
def schemeChars : List Char :=
  "abcdefghijklmnopqrstuvwxyzABCDEFGHIJKLMNOPQRSTUVWXYZ0123456789+-.".toList

/-- `urllib.parse.uses_params` (schemes whose paths may carry `;params`). -/
def usesParams : List (List Char) :=
  [[], "ftp".toList, "hdl".toList, "prospero".toList, "http".toList,
   "imap".toList, "https".toList, "shttp".toList, "rtsp".toList,
   "rtspu".toList, "sip".toList, "sips".toList, "mms".toList,
   "sftp".toList, "tel".toList]

/-- The scheme-extraction step of `urlsplit`:
`i = url.find(':')`; when `i > 0`, `url[0]` is an ASCII letter and every
char of `url[:i]` is in `scheme_chars`, the scheme is `url[:i].lower()` and
the rest is `url[i+1:]`; otherwise the scheme is empty and the url is kept.
(`Char.isAlpha` is ASCII-only, matching `url[0].isascii() and
url[0].isalpha()`; `url[0]` is modelled as `url.headD ' '` — the default is
never consulted, since the guard requires a non-empty `url[:i]`.) -/
def splitScheme (url : List Char) : List Char × List Char :=
  let pre := url.takeWhile (fun c => c ≠ ':')
  if url.contains ':' && !pre.isEmpty && (url.headD ' ').isAlpha &&
      pre.all (fun c => schemeChars.contains c) then
    (pre.map Char.toLower, url.drop (pre.length + 1))
  else
    ([], url)

/-- The delimiters ending a netloc (`_splitnetloc` scans for `/?#`). -/
def netlocDelims : List Char := ['/', '?', '#']

/-- `_splitparams(url)` from CPython: split `;params` off the last path
segment.  (The `else`-branch with no `';'` present mirrors CPython's
`url[:-1], url` quirk; it is unreachable from `urlparse`, which only calls
this when `';' in url`.) -/
def splitparamsL (url : List Char) : List Char × List Char :=
  let i? :=
    if url.contains '/' then
      match pyRFindChar '/' url with
      | some j => pyFindCharFrom ';' url j
      | none => none
    else
      url.findIdx? (fun x => x = ';')
  match i? with
  | some i => (url.take i, url.drop (i + 1))
  | none =>
    if url.contains '/' then (url, [])
    else (url.take (url.length - 1), url)

/-- The result of `urlparse`: the six components of
`scheme://netloc/path;params?query#fragment`. -/
structure ParseResult where
  scheme : List Char
  netloc : List Char
  path : List Char
  params : List Char
  query : List Char
  fragment : List Char
deriving DecidableEq, Repr

/-- The `_UNSAFE_URL_BYTES_TO_REMOVE` step of `urlsplit`: remove every
`\t`, `\r` and `\n`. -/
def removeUnsafe (url : List Char) : List Char :=
  url.filter (fun c => !(c = '\t' ∨ c = '\r' ∨ c = '\n'))

/-- The netloc step of `urlsplit`: after a leading `"//"`, the netloc runs
up to the first of `/?#` (`_splitnetloc(url, 2)`); otherwise it is empty. -/
def splitNetlocStage (url : List Char) : List Char × List Char :=
  if url.take 2 = ['/', '/'] then
    ((url.drop 2).takeWhile (fun c => !netlocDelims.contains c),
     (url.drop 2).dropWhile (fun c => !netlocDelims.contains c))
  else ([], url)

/-- The shared shape of the fragment and query steps of `urlsplit`:
`if ch in url: url, rest = url.split(ch, 1)`. -/
def splitAtCharStage (ch : Char) (url : List Char) : List Char × List Char :=
  if url.contains ch then
    (url.takeWhile (fun c => c ≠ ch), (url.dropWhile (fun c => c ≠ ch)).drop 1)
  else (url, [])

/-- The fragment step of `urlsplit`: `if '#' in url: url, fragment =
url.split('#', 1)`. -/
def splitFragmentStage (url : List Char) : List Char × List Char :=
  splitAtCharStage '#' url

/-- The query step of `urlsplit`: `if '?' in url: url, query =
url.split('?', 1)`. -/
def splitQueryStage (url : List Char) : List Char × List Char :=
  splitAtCharStage '?' url

/-- `urllib.parse.urlsplit(url)` (with `scheme=''`, `allow_fragments=True`):
remove `\t`, `\r`, `\n`; extract the scheme; extract the netloc after a
leading `"//"` (up to the first of `/?#`); split the fragment at the first
`'#'`; split the query at the first `'?'`. -/
def urlsplitL (url0 : List Char) : ParseResult :=
  let sp := splitScheme (removeUnsafe url0)
  let nl := splitNetlocStage sp.2
  let fr := splitFragmentStage nl.2
  let qu := splitQueryStage fr.1
  ⟨sp.1, nl.1, qu.1, [], qu.2, fr.2⟩

/-- `urllib.parse.urlparse(url)`: `urlsplit`, then split `;params` off the
path when the scheme uses params. -/
def urlparseL (url : List Char) : ParseResult :=
  let s := urlsplitL url
  if usesParams.contains s.scheme ∧ s.path.contains ';' then
    let pp := splitparamsL s.path
    ⟨s.scheme, s.netloc, pp.1, pp.2, s.query, s.fragment⟩
  else
    ⟨s.scheme, s.netloc, s.path, [], s.query, s.fragment⟩

/-! ## Link normalization (`crawler_bot.py` lines 41-63) -/

/-- The body of `normalize_link` over an already-parsed result:
`path = parsed.path.rstrip("/");
return f"{parsed.scheme}://{parsed.netloc}{path}"`. -/
def normalize_link_core (parsed : ParseResult) : String :=
  String.mk (parsed.scheme ++ "://".toList ++ parsed.netloc ++ rstripSlash parsed.path)

/-- `normalize_link(link)` (lines 41-44). -/
def normalize_link (link : String) : String :=
  normalize_link_core (urlparseL link.toList)

/-- The reserved telegram path markers of `normalize_telegram_channel`. -/
def special_markers : List (List Char) :=
  ["/joinchat/".toList, "/addstickers/".toList, "/s/".toList, "/proxy".toList]

/-- The body of `normalize_telegram_channel` over an already-parsed
result: keep the full (slash-stripped) path for reserved markers; collapse
`t.me/<seg1>/<digits>` to `t.me/<seg1>`; otherwise behave like the general
rule. -/
def telegram_channel_core (parsed : ParseResult) : String :=
  let path := rstripSlash parsed.path
  if special_markers.any (fun pre => pre.isPrefixOf path) then
    String.mk (parsed.scheme ++ "://".toList ++ parsed.netloc ++ path)
  else if parsed.netloc = "t.me".toList ∧ (path.drop 1).contains '/' then
    match pySplitChar '/' path with
    | _ :: p1 :: p2 :: _ =>
      if pyIsDigit p2 then
        String.mk (parsed.scheme ++ "://".toList ++ parsed.netloc ++ '/' :: p1)
      else
        String.mk (parsed.scheme ++ "://".toList ++ parsed.netloc ++ path)
    | _ => String.mk (parsed.scheme ++ "://".toList ++ parsed.netloc ++ path)
  else
    String.mk (parsed.scheme ++ "://".toList ++ parsed.netloc ++ path)

/-- `normalize_telegram_channel(link)` (lines 46-56). -/
def normalize_telegram_channel (link : String) : String :=
  telegram_channel_core (urlparseL link.toList)

/-- `detect_platform(link)`: substring dispatch, first match wins. -/
def detect_platform (link : String) : String :=
  if pyInStr "t.me".toList link.toList then "telegram"
  else if pyInStr "chat.whatsapp.com".toList link.toList then "whatsapp"
  else "other"

/-- The per-candidate canonicalization used by `save_links_to_db`
(line 104): `normalize_telegram_channel(link) if "t.me" in link else
normalize_link(link)`. -/
def canonicalOf (link : String) : String :=
  if pyInStr "t.me".toList link.toList then normalize_telegram_channel link
  else normalize_link link

/-! ## Data model (`crawler_bot.py` lines 16-29, the `links` table, and the
transport objects the handler reads) -/

/-- The chat (group) descriptor: `chat.id`, `chat.title`, `chat.username`.
`id` is always present on an effective chat; title and username may be
absent (`None`). -/
structure Chat where
  id : Int
  title : Option String
  username : Option String
deriving DecidableEq, Repr

/-- The sender descriptor: `sender.id`, `sender.full_name`. -/
structure Sender where
  id : Int
  full_name : String
deriving DecidableEq, Repr

/-- One row of the `links` table (the surrogate `id` column is the list
position; `UNIQUE(normalized_link, group_id)` is enforced by
`storeHasPair` below). -/
structure LinkRecord where
  normalized_link : String
  original_link : String
  platform : String
  group_id : Int
  group_name : Option String
  sender_id : Int
  sender_name : String
  date_added : String
deriving DecidableEq, Repr

/-- Python `a or b` on optional strings: `None` and `""` are falsy
(models `chat.title or chat.username`). -/
def pyOrStr (a b : Option String) : Option String :=
  match a with
  | some s => if s = "" then b else some s
  | none => b

/-- The row built by the `INSERT` statement (lines 109-117): canonical via
the line-104 dispatch, original link, platform, chat and sender fields,
and the `datetime.utcnow().isoformat()` timestamp (supplied by `now`). -/
def mkRecord (link : String) (chat : Chat) (sender : Sender) (now : String) : LinkRecord :=
  { normalized_link := canonicalOf link
    original_link := link
    platform := detect_platform link
    group_id := chat.id
    group_name := pyOrStr chat.title chat.username
    sender_id := sender.id
    sender_name := sender.full_name
    date_added := now }

/-- The `UNIQUE(normalized_link, group_id)` probe: does the store already
hold a row with this canonical link and group id?  (An `INSERT` raises
`sqlite3.IntegrityError` exactly when this is true.) -/
def storeHasPair (db : List LinkRecord) (normalized : String) (g : Int) : Bool :=
  db.any (fun r => r.normalized_link = normalized ∧ r.group_id = g)

/-- The `for link in original_links` loop of `save_links_to_db`
(lines 103-120): `i` counts iterations (feeding the clock), `saved_count`
is the accumulator, `db` the table contents.  A duplicate
(`IntegrityError`) is skipped; an insert appends the row and increments
the count. -/
def saveLoop (clock : Nat → String) (chat : Chat) (sender : Sender) :
    List String → Nat → Nat → List LinkRecord → Nat × List LinkRecord
  | [], _, saved_count, db => (saved_count, db)
  | link :: rest, i, saved_count, db =>
    if storeHasPair db (canonicalOf link) chat.id then
      saveLoop clock chat sender rest (i + 1) saved_count db
    else
      saveLoop clock chat sender rest (i + 1) (saved_count + 1)
        (db ++ [mkRecord link chat sender (clock i)])

/-- `save_links_to_db(original_links, chat, sender)` (lines 98-124) in the
fault-free case: returns the new-record count and the table contents after
commit.  The wall clock (`datetime.utcnow().isoformat()` per iteration) is
modelled by the `clock` parameter. -/
def save_links_to_db (clock : Nat → String) (original_links : List String)
    (chat : Chat) (sender : Sender) (db : List LinkRecord) : Nat × List LinkRecord :=
  saveLoop clock chat sender original_links 0 0 db

/-- The same loop with a fault oracle: when `fault i` is true the
`cursor.execute` of iteration `i` raises a hard (non-`IntegrityError`)
storage error, which the source does not catch — the loop is abandoned and
`none` is returned. -/
def saveRunLoop (clock : Nat → String) (fault : Nat → Bool) (chat : Chat) (sender : Sender) :
    List String → Nat → Nat → List LinkRecord → Option (Nat × List LinkRecord)
  | [], _, saved_count, db => some (saved_count, db)
  | link :: rest, i, saved_count, db =>
    if fault i then none
    else if storeHasPair db (canonicalOf link) chat.id then
      saveRunLoop clock fault chat sender rest (i + 1) saved_count db
    else
      saveRunLoop clock fault chat sender rest (i + 1) (saved_count + 1)
        (db ++ [mkRecord link chat sender (clock i)])

/-- The observable outcome of one `save_links_to_db` call under the fault
oracle.  `result` is `some (count, table)` when the loop, `conn.commit()`
and `conn.close()` all complete, `none` when a hard error propagates.
`connClosed` records whether `conn.close()` (line 123) was executed: the
source has no `try/finally` around the loop, so a propagating hard error
skips both `conn.commit()` and `conn.close()`. -/
structure RunOutcome where
  result : Option (Nat × List LinkRecord)
  connClosed : Bool
deriving DecidableEq, Repr

/-- `save_links_to_db` under the fault oracle, tracking whether the
connection was released. -/
def save_links_to_db_run (clock : Nat → String) (fault : Nat → Bool)
    (original_links : List String) (chat : Chat) (sender : Sender)
    (db : List LinkRecord) : RunOutcome :=
  match saveRunLoop clock fault chat sender original_links 0 0 db with
  | some (cnt, db1) => ⟨some (cnt, db1), true⟩
  | none => ⟨none, false⟩

/-! ## Link extraction (`crawler_bot.py` lines 66-95) -/

/-- A transport entity span over a text: `type` (`"url"` for
`MessageEntity.URL`, `"text_link"` for `MessageEntity.TEXT_LINK`),
`offset`/`length` in code points, and the attached `url` (meaningful for
`text_link` entities, where the transport always supplies it). -/
structure MsgEntity where
  type : String
  offset : Nat
  length : Nat
  url : String
deriving DecidableEq, Repr

/-- An inline keyboard button; `url` may be absent. -/
structure Button where
  url : Option String
deriving DecidableEq, Repr

/-- An inline keyboard: rows of buttons. -/
structure Markup where
  inline_keyboard : List (List Button)
deriving DecidableEq, Repr

/-- A message snapshot: text and caption with their entity spans, an
optional button layout, and an optional replied-to parent message. -/
inductive Message where
  | mk (text : Option String) (entities : List MsgEntity)
       (caption : Option String) (caption_entities : List MsgEntity)
       (reply_markup : Option Markup)
       (reply_to_message : Option Message)

/-- Python slice `text[offset : offset + length]` on code points. -/
def pySlice (text : String) (offset length : Nat) : String :=
  String.mk ((text.toList.drop offset).take length)

/-- `extract_links_from_entities(text, entities)` (lines 78-87): slice the
text at bare-URL spans, take the attached url of rich-link spans, in span
order. -/
def extract_links_from_entities (text : String) (entities : List MsgEntity) : List String :=
  entities.filterMap (fun e =>
    if e.type = "url" then some (pySlice text e.offset e.length)
    else if e.type = "text_link" then some e.url
    else none)

/-- `extract_links_from_buttons(markup)` (lines 89-95): every button url in
row order; `if button.url:` skips `None` and the falsy empty string. -/
def extract_links_from_buttons (markup : Markup) : List String :=
  (markup.inline_keyboard.map (fun row =>
    row.filterMap (fun b =>
      match b.url with
      | some u => if u = "" then none else some u
      | none => none))).flatten

/-- `extract_all_links_from_message(message)` (lines 66-76): text-entity
links, then caption-entity links, then button urls, then the links of the
replied-to message, recursively.  `if message.text:` is Python truthiness,
so an empty text or caption contributes nothing. -/
def extract_all_links_from_message : Message → List String
  | .mk text entities caption caption_entities reply_markup reply_to =>
    (match text with
     | some t => if t = "" then [] else extract_links_from_entities t entities
     | none => [])
    ++ (match caption with
     | some c => if c = "" then [] else extract_links_from_entities c caption_entities
     | none => [])
    ++ (match reply_markup with
     | some m => extract_links_from_buttons m
     | none => [])
    ++ (match reply_to with
     | some parent => extract_all_links_from_message parent
     | none => [])

/-! ## Coordinator (`crawler_bot.py` lines 127-141) -/

/-- The observability signal printed on line 141: the new-record count and
the originating chat's identity. -/
structure Signal where
  added : Nat
  chat_id : Int
  chat_title : Option String
deriving DecidableEq, Repr

/-- `handle_all_messages(update, context)`: with no effective message,
return; extract; with no links, return; otherwise save and, when the
returned count is truthy (non-zero), print the signal.  Returns the table
contents and the emitted signal (if any). -/
def handle_all_messages (clock : Nat → String) (message : Option Message)
    (chat : Chat) (sender : Sender) (db : List LinkRecord) :
    List LinkRecord × Option Signal :=
  match message with
  | none => (db, none)
  | some m =>
    let all_links := extract_all_links_from_message m
    if all_links.isEmpty then (db, none)
    else
      let r := save_links_to_db clock all_links chat sender db
      if r.1 ≠ 0 then (r.2, some ⟨r.1, chat.id, chat.title⟩)
      else (r.2, none)

/-! ## Startup credential check (`crawler_bot.py` lines 144-148) -/

/-- What the module-level token check does to the process. -/
inductive StartupOutcome where
  | exitProcess (message : String) (code : Nat)
  | proceed (token : String)
deriving DecidableEq, Repr

/-- The diagnostic printed on line 147 (reproduced byte-for-byte from the
source, mojibake included). -/
def tokenDiagnostic : String := "‚ùå TOKEN not found in environment variables."

/-- `TOKEN = os.getenv("TOKEN"); if not TOKEN: print(...); exit()`:
a missing or empty (falsy) token prints the diagnostic and calls the bare
`exit()`, which raises `SystemExit(None)` — the interpreter then
terminates with exit status `0`. -/
def startup_token_check (envTOKEN : Option String) : StartupOutcome :=
  match envTOKEN with
  | none => .exitProcess tokenDiagnostic 0
  | some t => if t = "" then .exitProcess tokenDiagnostic 0 else .proceed t

/-! ## Concrete fixtures used in closed statements -/

/-- A fixed wall clock for closed statements. -/
def demoClock : Nat → String := fun _ => "2024-01-01T00:00:00"

/-- A sample group chat. -/
def demoChatA : Chat := ⟨1, some "Group A", none⟩

/-- A second sample group chat with a different id. -/
def demoChatB : Chat := ⟨2, none, some "groupb"⟩

/-- A sample sender. -/
def demoSender : Sender := ⟨7, "Alice"⟩

/-- A parent message carrying a single button URL. -/
def demoParent : Message :=
  .mk none [] none [] (some ⟨[[⟨some "https://b.example"⟩]]⟩) none

/-- A message with one bare-URL text entity, replying to `demoParent`. -/
def demoChild : Message :=
  .mk (some "see https://a.example") [⟨"url", 4, 17, ""⟩] none [] none (some demoParent)

/-- A message with no text, caption, buttons or parent. -/
def demoEmptyMsg : Message := .mk none [] none [] none none

/-! ## Store lemmas -/

theorem storeHasPair_append (db : List LinkRecord) (r : LinkRecord) (n : String) (g : Int) :
    storeHasPair (db ++ [r]) n g
      = (storeHasPair db n g || (r.normalized_link = n ∧ r.group_id = g)) := by
  simp [storeHasPair, List.any_append]

theorem saveLoop_count_length (clock : Nat → String) (c : Chat) (s : Sender) :
    ∀ (links : List String) (i cnt : Nat) (db : List LinkRecord),
      (saveLoop clock c s links i cnt db).1 + db.length
        = cnt + (saveLoop clock c s links i cnt db).2.length := by
  intro links
  induction links with
  | nil => intro i cnt db; simp [saveLoop]
  | cons link rest ih =>
    intro i cnt db
    by_cases h : storeHasPair db (canonicalOf link) c.id
    · simpa [saveLoop, h] using ih (i + 1) cnt db
    · have hx := ih (i + 1) (cnt + 1) (db ++ [mkRecord link c s (clock i)])
      simp [saveLoop, h] at hx ⊢
      omega

theorem saveLoop_mono (clock : Nat → String) (c : Chat) (s : Sender)
    (n : String) (g : Int) :
    ∀ (links : List String) (i cnt : Nat) (db : List LinkRecord),
      storeHasPair db n g = true →
      storeHasPair (saveLoop clock c s links i cnt db).2 n g = true := by
  intro links
  induction links with
  | nil => intro i cnt db h; simpa [saveLoop] using h
  | cons link rest ih =>
    intro i cnt db h
    by_cases hc : storeHasPair db (canonicalOf link) c.id
    · simpa [saveLoop, hc] using ih (i + 1) cnt db h
    · have h2 : storeHasPair (db ++ [mkRecord link c s (clock i)]) n g = true := by
        rw [storeHasPair_append, h]; rfl
      simpa [saveLoop, hc] using ih (i + 1) (cnt + 1) _ h2

theorem saveLoop_mem_after (clock : Nat → String) (c : Chat) (s : Sender) :
    ∀ (links : List String) (i cnt : Nat) (db : List LinkRecord) (link : String),
      link ∈ links →
      storeHasPair (saveLoop clock c s links i cnt db).2 (canonicalOf link) c.id = true := by
  intro links
  induction links with
  | nil => intro i cnt db link h; cases h
  | cons hd rest ih =>
    intro i cnt db link hmem
    rcases List.mem_cons.mp hmem with heq | htail
    · subst heq
      by_cases hc : storeHasPair db (canonicalOf link) c.id
      · simpa [saveLoop, hc] using
          saveLoop_mono clock c s (canonicalOf link) c.id rest (i + 1) cnt db hc
      · have hins : storeHasPair (db ++ [mkRecord link c s (clock i)])
            (canonicalOf link) c.id = true := by
          rw [storeHasPair_append]
          simp [mkRecord]
        simpa [saveLoop, hc] using
          saveLoop_mono clock c s (canonicalOf link) c.id rest (i + 1) (cnt + 1) _ hins
    · by_cases hc : storeHasPair db (canonicalOf hd) c.id
      · simpa [saveLoop, hc] using ih (i + 1) cnt db link htail
      · simpa [saveLoop, hc] using ih (i + 1) (cnt + 1) _ link htail

theorem saveLoop_all_dup (clock : Nat → String) (c : Chat) (s : Sender) :
    ∀ (links : List String) (i cnt : Nat) (db : List LinkRecord),
      (∀ l ∈ links, storeHasPair db (canonicalOf l) c.id = true) →
      saveLoop clock c s links i cnt db = (cnt, db) := by
  intro links
  induction links with
  | nil => intro i cnt db _; simp [saveLoop]
  | cons hd rest ih =>
    intro i cnt db h
    have hc : storeHasPair db (canonicalOf hd) c.id = true := h hd (by simp)
    simpa [saveLoop, hc] using
      ih (i + 1) cnt db (fun l hl => h l (List.mem_cons_of_mem hd hl))

theorem saveLoop_group_of_mem (clock : Nat → String) (c : Chat) (s : Sender) :
    ∀ (links : List String) (i cnt : Nat) (db : List LinkRecord) (r : LinkRecord),
      r ∈ (saveLoop clock c s links i cnt db).2 → r ∈ db ∨ r.group_id = c.id := by
  intro links
  induction links with
  | nil => intro i cnt db r h; exact Or.inl (by simpa [saveLoop] using h)
  | cons hd rest ih =>
    intro i cnt db r h
    by_cases hc : storeHasPair db (canonicalOf hd) c.id
    · exact ih (i + 1) cnt db r (by simpa [saveLoop, hc] using h)
    · rcases ih (i + 1) (cnt + 1) _ r (by simpa [saveLoop, hc] using h) with hmem | hgrp
      · rcases List.mem_append.mp hmem with hdb | hnew
        · exact Or.inl hdb
        · right
          have : r = mkRecord hd c s (clock i) := by simpa using hnew
          rw [this]; rfl
      · exact Or.inr hgrp

/-- C1: the pair (canonical link, origin group id) is unique across stored
records — inserting a candidate whose canonical link and group id match an
existing record stores nothing new, while the same canonical link inserted
under two different group ids yields two distinct records. -/
theorem pair_canonical_group_unique (clock clock2 : Nat → String) (link : String)
    (cA cB : Chat) (s : Sender) (db : List LinkRecord)
    (hdup : storeHasPair db (canonicalOf link) cA.id = true)
    (hne : cA.id ≠ cB.id) :
    save_links_to_db clock [link] cA s db = (0, db)
    ∧ ∃ r1 r2 : LinkRecord,
        (save_links_to_db clock2 [link] cB s
            (save_links_to_db clock [link] cA s []).2).2 = [r1, r2]
        ∧ r1 ≠ r2 ∧ r1.normalized_link = r2.normalized_link
        ∧ r1.group_id = cA.id ∧ r2.group_id = cB.id := by
  constructor
  · simp [save_links_to_db, saveLoop, hdup]
  · have hempty : storeHasPair [] (canonicalOf link) cA.id = false := rfl
    have hfirst : save_links_to_db clock [link] cA s []
        = (1, [mkRecord link cA s (clock 0)]) := by
      simp [save_links_to_db, saveLoop, hempty]
    have hsecond : storeHasPair [mkRecord link cA s (clock 0)]
        (canonicalOf link) cB.id = false := by
      simp [storeHasPair, mkRecord]
      intro h2
      exact absurd h2 hne
    refine ⟨mkRecord link cA s (clock 0), mkRecord link cB s (clock2 0), ?_, ?_, rfl, rfl, rfl⟩
    · rw [hfirst]
      simp [save_links_to_db, saveLoop, hsecond]
    · intro hcontra
      exact hne (congrArg LinkRecord.group_id hcontra)

/-- C2: calling `save_links_to_db` twice with the same candidate list and
group against an initially empty store returns `N` the first time, `0` the
second time, and leaves exactly `N` records for that group in the store. -/
theorem insert_batch_idempotent (clock clock2 : Nat → String) (L : List String)
    (c : Chat) (s : Sender) :
    save_links_to_db clock2 L c s (save_links_to_db clock L c s []).2
        = (0, (save_links_to_db clock L c s []).2)
    ∧ ((save_links_to_db clock L c s []).2.filter
        (fun r => r.group_id = c.id)).length = (save_links_to_db clock L c s []).1 := by
  constructor
  · exact saveLoop_all_dup clock2 c s L 0 0 _
      (fun l hl => saveLoop_mem_after clock c s L 0 0 [] l hl)
  · have hall : ∀ r ∈ (save_links_to_db clock L c s []).2, r.group_id = c.id := by
      intro r hr
      rcases saveLoop_group_of_mem clock c s L 0 0 [] r hr with h | h
      · cases h
      · exact h
    have hfilter : (save_links_to_db clock L c s []).2.filter
        (fun r => r.group_id = c.id) = (save_links_to_db clock L c s []).2 := by
      rw [List.filter_eq_self]
      intro a ha
      simpa using hall a ha
    rw [hfilter]
    have := saveLoop_count_length clock c s L 0 0 []
    simpa [save_links_to_db] using this.symm

theorem saveLoop_count_distinct (clock : Nat → String) (c : Chat) (s : Sender) :
    ∀ (L : List String) (i cnt : Nat) (db : List LinkRecord),
      (saveLoop clock c s L i cnt db).1
        = cnt + ((L.map canonicalOf).toFinset.filter
            (fun n => storeHasPair db n c.id = false)).card := by
  intro L
  induction L with
  | nil => intro i cnt db; simp [saveLoop]
  | cons l rest ih =>
    intro i cnt db
    by_cases hc : storeHasPair db (canonicalOf l) c.id
    · have hrw : (((l :: rest).map canonicalOf).toFinset.filter
          (fun n => storeHasPair db n c.id = false))
          = ((rest.map canonicalOf).toFinset.filter
              (fun n => storeHasPair db n c.id = false)) := by
        simp [Finset.filter_insert, hc]
      calc (saveLoop clock c s (l :: rest) i cnt db).1
          = (saveLoop clock c s rest (i + 1) cnt db).1 := by
            simp [saveLoop, hc]
        _ = cnt + ((rest.map canonicalOf).toFinset.filter
              (fun n => storeHasPair db n c.id = false)).card := ih (i + 1) cnt db
        _ = cnt + (((l :: rest).map canonicalOf).toFinset.filter
              (fun n => storeHasPair db n c.id = false)).card := by rw [hrw]
    · have hcf : storeHasPair db (canonicalOf l) c.id = false := by
        simpa using hc
      have herase : ((rest.map canonicalOf).toFinset.filter
            (fun n => storeHasPair (db ++ [mkRecord l c s (clock i)]) n c.id = false))
          = (((rest.map canonicalOf).toFinset.filter
              (fun n => storeHasPair db n c.id = false)).erase (canonicalOf l)) := by
        ext n
        simp only [Finset.mem_filter, Finset.mem_erase, storeHasPair_append, mkRecord,
          Bool.or_eq_false_iff, decide_eq_false_iff_not, ne_eq, not_and, and_true]
        constructor
        · rintro ⟨hmem, hdb, hnot⟩
          exact ⟨fun he => hnot he.symm, hmem, hdb⟩
        · rintro ⟨hne, hmem, hdb⟩
          exact ⟨hmem, hdb, fun he => hne he.symm⟩
      have hcard : (((l :: rest).map canonicalOf).toFinset.filter
            (fun n => storeHasPair db n c.id = false)).card
          = 1 + ((((rest.map canonicalOf).toFinset.filter
              (fun n => storeHasPair db n c.id = false)).erase (canonicalOf l))).card := by
        set T := (rest.map canonicalOf).toFinset.filter
            (fun n => storeHasPair db n c.id = false) with hT
        have hins : (((l :: rest).map canonicalOf).toFinset.filter
            (fun n => storeHasPair db n c.id = false))
            = insert (canonicalOf l) T := by
          simp [Finset.filter_insert, hcf, hT]
        rw [hins]
        by_cases hmem : canonicalOf l ∈ T
        · rw [Finset.insert_eq_self.mpr hmem]
          have := Finset.card_erase_add_one hmem
          omega
        · rw [Finset.card_insert_of_not_mem hmem, Finset.erase_eq_of_not_mem hmem]
          omega
      have hIH := ih (i + 1) (cnt + 1) (db ++ [mkRecord l c s (clock i)])
      rw [herase] at hIH
      calc (saveLoop clock c s (l :: rest) i cnt db).1
          = (saveLoop clock c s rest (i + 1) (cnt + 1)
              (db ++ [mkRecord l c s (clock i)])).1 := by
            simp [saveLoop, hc]
        _ = cnt + 1 + ((((rest.map canonicalOf).toFinset.filter
              (fun n => storeHasPair db n c.id = false)).erase (canonicalOf l))).card := hIH
        _ = cnt + (((l :: rest).map canonicalOf).toFinset.filter
              (fun n => storeHasPair db n c.id = false)).card := by
            rw [hcard]; omega

/-- C10: within a single `save_links_to_db` batch, duplicates inside the
candidate list itself are collapsed: the returned count equals the number
of distinct new canonical links (not the number of candidates), and when
two candidates normalize to the same canonical link only the first is
stored. -/
theorem within_batch_dedup (clock : Nat → String) (c : Chat) (s : Sender)
    (x y : String) (h : canonicalOf x = canonicalOf y) :
    (∀ (L : List String) (db : List LinkRecord),
      (save_links_to_db clock L c s db).1
        = ((L.map canonicalOf).toFinset.filter
            (fun n => storeHasPair db n c.id = false)).card)
    ∧ save_links_to_db clock [x, y] c s [] = (1, [mkRecord x c s (clock 0)]) := by
  constructor
  · intro L db
    simpa [save_links_to_db] using saveLoop_count_distinct clock c s L 0 0 db
  · have h0 : storeHasPair [] (canonicalOf x) c.id = false := rfl
    have h1 : storeHasPair [mkRecord x c s (clock 0)] (canonicalOf y) c.id = true := by
      simp [storeHasPair, mkRecord, h]
    simp [save_links_to_db, saveLoop, h0, h1]

/-! ## Batch decomposition lemmas (used by C5) -/

theorem saveLoop_append (clock : Nat → String) (c : Chat) (s : Sender) :
    ∀ (xs ys : List String) (i cnt : Nat) (db : List LinkRecord),
      saveLoop clock c s (xs ++ ys) i cnt db
        = saveLoop clock c s ys (i + xs.length)
            (saveLoop clock c s xs i cnt db).1 (saveLoop clock c s xs i cnt db).2 := by
  intro xs
  induction xs with
  | nil => intro ys i cnt db; simp [saveLoop]
  | cons x rest ih =>
    intro ys i cnt db
    by_cases hc : storeHasPair db (canonicalOf x) c.id
    · calc saveLoop clock c s ((x :: rest) ++ ys) i cnt db
          = saveLoop clock c s (rest ++ ys) (i + 1) cnt db := by
            simp [saveLoop, hc]
        _ = saveLoop clock c s ys (i + 1 + rest.length)
              (saveLoop clock c s rest (i + 1) cnt db).1
              (saveLoop clock c s rest (i + 1) cnt db).2 := ih ys (i + 1) cnt db
        _ = saveLoop clock c s ys (i + (x :: rest).length)
              (saveLoop clock c s (x :: rest) i cnt db).1
              (saveLoop clock c s (x :: rest) i cnt db).2 := by
            rw [show saveLoop clock c s (x :: rest) i cnt db
                  = saveLoop clock c s rest (i + 1) cnt db from by simp [saveLoop, hc],
               List.length_cons,
               show i + (rest.length + 1) = i + 1 + rest.length from by omega]
    · calc saveLoop clock c s ((x :: rest) ++ ys) i cnt db
          = saveLoop clock c s (rest ++ ys) (i + 1) (cnt + 1)
              (db ++ [mkRecord x c s (clock i)]) := by
            simp [saveLoop, hc]
        _ = saveLoop clock c s ys (i + 1 + rest.length)
              (saveLoop clock c s rest (i + 1) (cnt + 1)
                (db ++ [mkRecord x c s (clock i)])).1
              (saveLoop clock c s rest (i + 1) (cnt + 1)
                (db ++ [mkRecord x c s (clock i)])).2 :=
            ih ys (i + 1) (cnt + 1) (db ++ [mkRecord x c s (clock i)])
        _ = saveLoop clock c s ys (i + (x :: rest).length)
              (saveLoop clock c s (x :: rest) i cnt db).1
              (saveLoop clock c s (x :: rest) i cnt db).2 := by
            rw [show saveLoop clock c s (x :: rest) i cnt db
                  = saveLoop clock c s rest (i + 1) (cnt + 1)
                      (db ++ [mkRecord x c s (clock i)]) from by simp [saveLoop, hc],
               List.length_cons,
               show i + (rest.length + 1) = i + 1 + rest.length from by omega]

theorem saveLoop_index_shift (clock : Nat → String) (c : Chat) (s : Sender) :
    ∀ (links : List String) (i d cnt : Nat) (db : List LinkRecord),
      saveLoop clock c s links (i + d) cnt db
        = saveLoop (fun j => clock (j + d)) c s links i cnt db := by
  intro links
  induction links with
  | nil => intro i d cnt db; simp [saveLoop]
  | cons x rest ih =>
    intro i d cnt db
    by_cases hc : storeHasPair db (canonicalOf x) c.id
    · rw [show saveLoop clock c s (x :: rest) (i + d) cnt db
            = saveLoop clock c s rest (i + d + 1) cnt db from by simp [saveLoop, hc],
         show saveLoop (fun j => clock (j + d)) c s (x :: rest) i cnt db
            = saveLoop (fun j => clock (j + d)) c s rest (i + 1) cnt db from by
            simp [saveLoop, hc],
         show i + d + 1 = i + 1 + d from by omega,
         ih (i + 1) d cnt db]
    · rw [show saveLoop clock c s (x :: rest) (i + d) cnt db
            = saveLoop clock c s rest (i + d + 1) (cnt + 1)
                (db ++ [mkRecord x c s (clock (i + d))]) from by simp [saveLoop, hc],
         show saveLoop (fun j => clock (j + d)) c s (x :: rest) i cnt db
            = saveLoop (fun j => clock (j + d)) c s rest (i + 1) (cnt + 1)
                (db ++ [mkRecord x c s (clock (i + d))]) from by simp [saveLoop, hc],
         show i + d + 1 = i + 1 + d from by omega,
         ih (i + 1) d (cnt + 1) (db ++ [mkRecord x c s (clock (i + d))])]

theorem saveLoop_accum (clock : Nat → String) (c : Chat) (s : Sender) :
    ∀ (links : List String) (i cnt : Nat) (db : List LinkRecord),
      saveLoop clock c s links i cnt db
        = (cnt + (saveLoop clock c s links i 0 db).1,
           (saveLoop clock c s links i 0 db).2) := by
  intro links
  induction links with
  | nil => intro i cnt db; simp [saveLoop]
  | cons x rest ih =>
    intro i cnt db
    by_cases hc : storeHasPair db (canonicalOf x) c.id
    · rw [show saveLoop clock c s (x :: rest) i cnt db
            = saveLoop clock c s rest (i + 1) cnt db from by simp [saveLoop, hc],
         show saveLoop clock c s (x :: rest) i 0 db
            = saveLoop clock c s rest (i + 1) 0 db from by simp [saveLoop, hc],
         ih (i + 1) cnt db]
    · rw [show saveLoop clock c s (x :: rest) i cnt db
            = saveLoop clock c s rest (i + 1) (cnt + 1)
                (db ++ [mkRecord x c s (clock i)]) from by simp [saveLoop, hc],
         show saveLoop clock c s (x :: rest) i 0 db
            = saveLoop clock c s rest (i + 1) (0 + 1)
                (db ++ [mkRecord x c s (clock i)]) from by simp [saveLoop, hc],
         ih (i + 1) (cnt + 1) (db ++ [mkRecord x c s (clock i)]),
         ih (i + 1) (0 + 1) (db ++ [mkRecord x c s (clock i)])]
      simp [Prod.ext_iff]
      omega

/-- C5 counterexample: the raw string `"hello"` has empty scheme and host;
its canonical value is `"://hello"`, not the raw string unchanged. -/
theorem unparseable_link_not_raw :
    (urlparseL "hello".toList).scheme = []
    ∧ (urlparseL "hello".toList).netloc = []
    ∧ canonicalOf "hello" = "://hello"
    ∧ canonicalOf "hello" ≠ "hello" := by
  refine ⟨rfl, rfl, rfl, ?_⟩
  decide

/-- C5 (amended): when scheme/host extraction yields empty components,
normalization still does not fail — the canonical value is `"://"`
followed by the parsed path with trailing slashes stripped (not the raw
string unchanged) — and the surrounding batch processes sibling candidates
normally (the batch over `link :: rest` equals the batch over `[link]`
followed by the batch over `rest`). -/
theorem unparseable_link_fallback (link : String)
    (hs : (urlparseL link.toList).scheme = [])
    (hn : (urlparseL link.toList).netloc = []) :
    normalize_link link
      = String.mk ("://".toList ++ rstripSlash (urlparseL link.toList).path)
    ∧ (∀ (clock : Nat → String) (c : Chat) (s : Sender) (db : List LinkRecord)
        (rest : List String),
        save_links_to_db clock (link :: rest) c s db
          = ((save_links_to_db clock [link] c s db).1
              + (save_links_to_db (fun j => clock (j + 1)) rest c s
                  (save_links_to_db clock [link] c s db).2).1,
             (save_links_to_db (fun j => clock (j + 1)) rest c s
                  (save_links_to_db clock [link] c s db).2).2)) := by
  constructor
  · have hdef : normalize_link link
        = String.mk ((urlparseL link.toList).scheme ++ "://".toList
            ++ (urlparseL link.toList).netloc
            ++ rstripSlash (urlparseL link.toList).path) := rfl
    rw [hdef, hs, hn]
    simp
  · intro clock c s db rest
    have happ := saveLoop_append clock c s [link] rest 0 0 db
    have hshift := saveLoop_index_shift clock c s rest 0 1
        (saveLoop clock c s [link] 0 0 db).1 (saveLoop clock c s [link] 0 0 db).2
    have haccum := saveLoop_accum (fun j => clock (j + 1)) c s rest 0
        (saveLoop clock c s [link] 0 0 db).1 (saveLoop clock c s [link] 0 0 db).2
    simp only [save_links_to_db, List.singleton_append, List.length_singleton] at *
    rw [happ]
    rw [show (0 : Nat) + 1 = 0 + 1 by rfl] at hshift
    rw [hshift, haccum]

/-- C6: extraction returns text-entity links, caption-entity links, button
URLs, then the recursively extracted links of the replied-to message, in
that strict order; a message with one text-entity URL replying to a
message with one button URL extracts `[text_url, button_url_of_parent]`. -/
theorem extraction_order_and_recursion :
    (∀ (t cap : Option String) (e ce : List MsgEntity) (rm : Option Markup) (p : Message),
      extract_all_links_from_message (.mk t e cap ce rm (some p))
        = extract_all_links_from_message (.mk t e cap ce rm none)
          ++ extract_all_links_from_message p)
    ∧ (∀ (t cap : String) (e ce : List MsgEntity) (m : Markup) (p : Message),
        t ≠ "" → cap ≠ "" →
        extract_all_links_from_message (.mk (some t) e (some cap) ce (some m) (some p))
          = extract_links_from_entities t e
            ++ extract_links_from_entities cap ce
            ++ extract_links_from_buttons m
            ++ extract_all_links_from_message p)
    ∧ extract_all_links_from_message demoChild
        = ["https://a.example", "https://b.example"] := by
  refine ⟨?_, ?_, ?_⟩
  · intro t cap e ce rm p
    simp [extract_all_links_from_message]
  · intro t cap e ce m p ht hcap
    simp [extract_all_links_from_message, ht, hcap]
  · rfl

/-- C7: the coordinator stores nothing and emits nothing when extraction is
empty (or there is no message); otherwise it saves the extracted list and
emits the signal exactly when the new-record count is non-zero, carrying
that count and the chat identity. -/
theorem coordinator_frame_and_signal (clock : Nat → String) (c : Chat) (s : Sender)
    (db : List LinkRecord) (m : Message) :
    (handle_all_messages clock none c s db = (db, none))
    ∧ (extract_all_links_from_message m = [] →
        handle_all_messages clock (some m) c s db = (db, none))
    ∧ (extract_all_links_from_message m ≠ [] →
        handle_all_messages clock (some m) c s db
          = ((save_links_to_db clock (extract_all_links_from_message m) c s db).2,
             if (save_links_to_db clock (extract_all_links_from_message m) c s db).1 ≠ 0
             then some ⟨(save_links_to_db clock (extract_all_links_from_message m) c s db).1,
                        c.id, c.title⟩
             else none)) := by
  refine ⟨rfl, ?_, ?_⟩
  · intro h
    simp [handle_all_messages, h]
  · intro h
    have hne : (extract_all_links_from_message m).isEmpty = false := by
      cases hx : extract_all_links_from_message m with
      | nil => exact absurd hx h
      | cons a l => rfl
    by_cases hz : (save_links_to_db clock (extract_all_links_from_message m) c s db).1 = 0 <;>
      simp [handle_all_messages, hne, hz]

/-! ## Connection lifecycle lemmas (C8) -/

theorem saveRunLoop_nofault (clock : Nat → String) (c : Chat) (s : Sender) :
    ∀ (links : List String) (i cnt : Nat) (db : List LinkRecord),
      saveRunLoop clock (fun _ => false) c s links i cnt db
        = some (saveLoop clock c s links i cnt db) := by
  intro links
  induction links with
  | nil => intro i cnt db; rfl
  | cons x rest ih =>
    intro i cnt db
    by_cases hc : storeHasPair db (canonicalOf x) c.id
    · simp only [saveRunLoop, saveLoop, hc, if_true, Bool.false_eq_true, if_false]
      exact ih (i + 1) cnt db
    · simp only [saveRunLoop, saveLoop, if_neg hc, Bool.false_eq_true, if_false]
      exact ih (i + 1) (cnt + 1) _

/-- C8 counterexample: a hard storage fault on the first candidate makes
`save_links_to_db` propagate the error without executing `conn.close()` —
the connection is not released on the hard-error exit path. -/
theorem connection_not_closed_on_fault :
    (save_links_to_db_run demoClock (fun _ => true) ["https://example.com/page"]
        demoChatA demoSender []).result = none
    ∧ (save_links_to_db_run demoClock (fun _ => true) ["https://example.com/page"]
        demoChatA demoSender []).connClosed = false := ⟨rfl, rfl⟩

/-- C8 (amended): the connection is released on successful completion and
on duplicate skips (any fault-free run closes it, and returns exactly the
fault-free result), but when a hard storage error propagates mid-batch the
connection is not released. -/
theorem connection_close_paths (clock : Nat → String) (c : Chat) (s : Sender) :
    (∀ (links : List String) (db : List LinkRecord),
      save_links_to_db_run clock (fun _ => false) links c s db
        = ⟨some (save_links_to_db clock links c s db), true⟩)
    ∧ (∀ (fault : Nat → Bool) (links : List String) (db : List LinkRecord),
        (save_links_to_db_run clock fault links c s db).result = none →
        (save_links_to_db_run clock fault links c s db).connClosed = false) := by
  constructor
  · intro links db
    unfold save_links_to_db_run save_links_to_db
    rw [saveRunLoop_nofault]
  · intro fault links db h
    unfold save_links_to_db_run at *
    cases hm : saveRunLoop clock fault c s links 0 0 db with
    | none => rfl
    | some v =>
      rw [hm] at h
      exact absurd h (by simp)

/-- C9 counterexample: with the token absent the process prints the
diagnostic and terminates via the bare `exit()`, i.e. with exit status
`0` — not with a non-zero status. -/
theorem startup_exit_status_zero :
    startup_token_check none = .exitProcess tokenDiagnostic 0
    ∧ ¬ ∃ (msg : String) (k : Nat),
        startup_token_check none = .exitProcess msg k ∧ 0 < k := by
  refine ⟨rfl, ?_⟩
  rintro ⟨msg, k, heq, hk⟩
  have h0 : StartupOutcome.exitProcess tokenDiagnostic 0
      = StartupOutcome.exitProcess msg k := heq
  injection h0 with h1 h2
  omega

/-- C9 (amended): if the token is absent (or empty, which Python treats as
falsy), startup prints the explicit diagnostic and terminates with exit
status zero — the bare `exit()` raises `SystemExit(None)`. -/
theorem startup_missing_token_behavior (env : Option String)
    (h : env = none ∨ env = some "") :
    startup_token_check env = .exitProcess tokenDiagnostic 0 := by
  rcases h with h | h <;> subst h <;> rfl

/-! ## Query/fragment stripping lemmas (C4) -/

theorem takeWhile_length_ne {p : Char → Bool} {l : List Char} {x : Char}
    (hx : x ∈ l) (hpx : p x = false) :
    (l.takeWhile p).length ≠ l.length := by
  intro hlen
  have heq : l.takeWhile p = l := (List.takeWhile_prefix p).eq_of_length hlen
  have hall := List.takeWhile_eq_self_iff.mp heq x hx
  rw [hpx] at hall
  cases hall

theorem removeUnsafe_sub {a : Char} {l : List Char} (h : a ∈ removeUnsafe l) : a ∈ l :=
  (List.mem_filter.mp h).1

theorem splitScheme_sub {a : Char} {u : List Char} (h : a ∈ (splitScheme u).2) : a ∈ u := by
  simp only [splitScheme] at h
  split at h
  · exact List.mem_of_mem_drop h
  · exact h

theorem headD_append (u0 : Char) (utl σ : List Char) :
    ((u0 :: utl) ++ σ).headD ' ' = (u0 :: utl).headD ' ' := rfl

theorem splitScheme_append_of_colon (u σ : List Char) (hu : ':' ∈ u) :
    splitScheme (u ++ σ) = ((splitScheme u).1, (splitScheme u).2 ++ σ) := by
  obtain ⟨u0, utl, rfl⟩ : ∃ u0 utl, u = u0 :: utl := by
    cases u with
    | nil => cases hu
    | cons a l => exact ⟨a, l, rfl⟩
  have hne : ((u0 :: utl).takeWhile (fun c => c ≠ ':')).length ≠ (u0 :: utl).length :=
    takeWhile_length_ne hu (by simp)
  have htake : ((u0 :: utl) ++ σ).takeWhile (fun c => c ≠ ':')
      = (u0 :: utl).takeWhile (fun c => c ≠ ':') := by
    rw [List.takeWhile_append, if_neg hne]
  have hlen : ((u0 :: utl).takeWhile (fun c => c ≠ ':')).length + 1 ≤ (u0 :: utl).length := by
    have hle : ((u0 :: utl).takeWhile (fun c => c ≠ ':')).length ≤ (u0 :: utl).length :=
      (List.takeWhile_prefix _).length_le
    omega
  have hdrop : ((u0 :: utl) ++ σ).drop
        (((u0 :: utl).takeWhile (fun c => c ≠ ':')).length + 1)
      = (u0 :: utl).drop
          (((u0 :: utl).takeWhile (fun c => c ≠ ':')).length + 1) ++ σ :=
    List.drop_append_of_le_length hlen
  have hcont : ((u0 :: utl) ++ σ).contains ':' = (u0 :: utl).contains ':' := by
    have h1 : ((u0 :: utl) ++ σ).contains ':' = true := by
      simpa using List.mem_append.mpr (Or.inl hu)
    have h2 : (u0 :: utl).contains ':' = true := by
      simpa using hu
    rw [h1, h2]
  simp only [List.cons_append] at htake hcont hdrop ⊢
  simp only [splitScheme, List.headD_cons]
  rw [htake, hcont, hdrop]
  by_cases hC : ((u0 :: utl).contains ':'
      && !((u0 :: utl).takeWhile (fun c => c ≠ ':')).isEmpty
      && u0.isAlpha
      && ((u0 :: utl).takeWhile (fun c => c ≠ ':')).all
          (fun c => schemeChars.contains c)) = true
  · rw [if_pos hC, if_pos hC]
  · rw [if_neg hC, if_neg hC]
    simp

theorem splitScheme_append_no_colon (u : List Char) (c : Char) (σ2 : List Char)
    (hu : ':' ∉ u) (hnotin : c ∉ schemeChars) (hcne : c ≠ ':') :
    splitScheme (u ++ c :: σ2) = ([], u ++ c :: σ2) ∧ splitScheme u = ([], u) := by
  have hpre : (u ++ c :: σ2).takeWhile (fun x => x ≠ ':')
      = u ++ c :: σ2.takeWhile (fun x => x ≠ ':') := by
    rw [List.takeWhile_append_of_pos (by
      intro a ha
      simp only [decide_eq_true_eq]
      intro hcol
      exact hu (hcol ▸ ha))]
    congr 1
    rw [List.takeWhile_cons, if_pos (by simpa using hcne)]
  constructor
  · simp only [splitScheme]
    split
    next h =>
      exfalso
      simp only [Bool.and_eq_true] at h
      have hall := h.2
      rw [hpre] at hall
      have hc := List.all_eq_true.mp hall c (by simp)
      exact hnotin (by simpa using hc)
    next h => rfl
  · simp only [splitScheme]
    split
    next h =>
      exfalso
      simp only [Bool.and_eq_true] at h
      have hcont := h.1.1.1
      have : ':' ∈ u := by simpa using hcont
      exact hu this
    next h => rfl

theorem splitNetlocStage_sub {a : Char} {r : List Char}
    (h : a ∈ (splitNetlocStage r).2) : a ∈ r := by
  unfold splitNetlocStage at h
  split at h
  · exact List.mem_of_mem_drop ((List.dropWhile_suffix _).subset h)
  · exact h

theorem splitNetlocStage_append (r : List Char) (c : Char) (σ2 : List Char)
    (hdelim : c ∈ netlocDelims) (hslash : c ≠ '/') :
    splitNetlocStage (r ++ c :: σ2)
      = ((splitNetlocStage r).1, (splitNetlocStage r).2 ++ c :: σ2) := by
  have hpc : ¬((!netlocDelims.contains c) = true) := by simp [hdelim]
  match r with
  | [] =>
    have hne : (c :: σ2).take 2 ≠ ['/', '/'] := by
      cases σ2 with
      | nil => simp
      | cons b σ3 =>
        intro hcontra
        simp at hcontra
        exact hslash hcontra.1
    unfold splitNetlocStage
    simp only [List.nil_append, List.take_nil]
    rw [if_neg hne, if_neg (by simp)]
    simp
  | [a] =>
    have hne : ([a] ++ c :: σ2).take 2 ≠ ['/', '/'] := by
      intro hcontra
      simp at hcontra
      exact hslash hcontra.2
    have hne2 : ([a] : List Char).take 2 ≠ ['/', '/'] := by simp
    unfold splitNetlocStage
    rw [if_neg hne, if_neg hne2]
  | a :: b :: r2 =>
    have htk : ((a :: b :: r2) ++ c :: σ2).take 2 = [a, b] := rfl
    have htk2 : (a :: b :: r2).take 2 = [a, b] := rfl
    unfold splitNetlocStage
    rw [htk, htk2]
    by_cases hab : ([a, b] : List Char) = ['/', '/']
    · rw [if_pos hab, if_pos hab]
      have hdr : ((a :: b :: r2) ++ c :: σ2).drop 2 = r2 ++ c :: σ2 := rfl
      have hdr2 : (a :: b :: r2).drop 2 = r2 := rfl
      rw [hdr, hdr2]
      by_cases hall : ∀ x ∈ r2, (!netlocDelims.contains x) = true
      · have htw : (r2 ++ c :: σ2).takeWhile (fun x => !netlocDelims.contains x)
            = r2 := by
          rw [List.takeWhile_append_of_pos hall, List.takeWhile_cons, if_neg hpc]
          simp
        have htw2 : r2.takeWhile (fun x => !netlocDelims.contains x) = r2 :=
          List.takeWhile_eq_self_iff.mpr hall
        have hdw : (r2 ++ c :: σ2).dropWhile (fun x => !netlocDelims.contains x)
            = c :: σ2 := by
          rw [List.dropWhile_append_of_pos hall, List.dropWhile_cons, if_neg hpc]
        have hdw2 : r2.dropWhile (fun x => !netlocDelims.contains x) = [] :=
          List.dropWhile_eq_nil_iff.mpr hall
        rw [htw, htw2, hdw, hdw2]
        simp
      · push_neg at hall
        obtain ⟨x, hx, hpx⟩ := hall
        have hpxf : (!netlocDelims.contains x) = false := by
          simpa using hpx
        have htw : (r2 ++ c :: σ2).takeWhile (fun x => !netlocDelims.contains x)
            = r2.takeWhile (fun x => !netlocDelims.contains x) := by
          rw [List.takeWhile_append, if_neg (takeWhile_length_ne hx hpxf)]
        have hdwne : r2.dropWhile (fun x => !netlocDelims.contains x) ≠ [] := by
          intro hcontra
          exact absurd (List.dropWhile_eq_nil_iff.mp hcontra x hx) hpx
        have hdw : (r2 ++ c :: σ2).dropWhile (fun x => !netlocDelims.contains x)
            = r2.dropWhile (fun x => !netlocDelims.contains x) ++ c :: σ2 := by
          rw [List.dropWhile_append, if_neg (by simpa using hdwne)]
        rw [htw, hdw]
    · rw [if_neg hab, if_neg hab]

theorem splitAtCharStage_not_mem (ch : Char) (t : List Char) (h : ch ∉ t) :
    splitAtCharStage ch t = (t, []) := by
  unfold splitAtCharStage
  rw [if_neg (by simpa using h)]

theorem splitAtCharStage_append (ch : Char) (t f2 : List Char) (h : ch ∉ t) :
    splitAtCharStage ch (t ++ ch :: f2) = (t, f2) := by
  have hmemt : ∀ a ∈ t, (fun x => decide (x ≠ ch)) a = true := by
    intro a ha
    simp only [decide_eq_true_eq]
    intro hcontra
    exact h (hcontra ▸ ha)
  have htw : (t ++ ch :: f2).takeWhile (fun x => x ≠ ch) = t := by
    rw [List.takeWhile_append_of_pos hmemt, List.takeWhile_cons, if_neg (by simp)]
    simp
  have hdw : (t ++ ch :: f2).dropWhile (fun x => x ≠ ch) = ch :: f2 := by
    rw [List.dropWhile_append_of_pos hmemt, List.dropWhile_cons, if_neg (by simp)]
  unfold splitAtCharStage
  rw [if_pos (by simp [List.mem_append])]
  rw [htw, hdw]
  rfl

theorem urlsplitL_strip_qf (u q f : List Char)
    (hu : ∀ ch ∈ u, ch ≠ '#' ∧ ch ≠ '?')
    (hq : ∀ ch ∈ q, ch ≠ '#') :
    (urlsplitL (u ++ ('?' :: (q ++ ('#' :: f))))).scheme = (urlsplitL u).scheme
    ∧ (urlsplitL (u ++ ('?' :: (q ++ ('#' :: f))))).netloc = (urlsplitL u).netloc
    ∧ (urlsplitL (u ++ ('?' :: (q ++ ('#' :: f))))).path = (urlsplitL u).path := by
  have hu' : ∀ ch ∈ removeUnsafe u, ch ≠ '#' ∧ ch ≠ '?' :=
    fun ch h => hu ch (removeUnsafe_sub h)
  have hq' : ∀ ch ∈ removeUnsafe q, ch ≠ '#' :=
    fun ch h => hq ch (removeUnsafe_sub h)
  have hclean : removeUnsafe (u ++ ('?' :: (q ++ ('#' :: f))))
      = removeUnsafe u ++ ('?' :: (removeUnsafe q ++ ('#' :: removeUnsafe f))) := by
    simp [removeUnsafe, List.filter_append]
  obtain ⟨s1, r, hsr⟩ : ∃ x y, splitScheme (removeUnsafe u) = (x, y) := ⟨_, _, rfl⟩
  have hrsub : ∀ ch ∈ r, ch ∈ removeUnsafe u := by
    intro ch h
    exact splitScheme_sub (by rw [hsr]; exact h)
  have hS : splitScheme (removeUnsafe u ++ ('?' :: (removeUnsafe q ++ ('#' :: removeUnsafe f))))
      = (s1, r ++ ('?' :: (removeUnsafe q ++ ('#' :: removeUnsafe f)))) := by
    by_cases hcol : ':' ∈ removeUnsafe u
    · rw [splitScheme_append_of_colon _ _ hcol, hsr]
    · obtain ⟨h1, h2⟩ := splitScheme_append_no_colon (removeUnsafe u) '?' _ hcol
        (by decide) (by decide)
      rw [h2] at hsr
      obtain ⟨hs1, hr⟩ : s1 = [] ∧ r = removeUnsafe u :=
        ⟨(Prod.mk.injEq _ _ _ _ ▸ hsr.symm).1, (Prod.mk.injEq _ _ _ _ ▸ hsr.symm).2⟩
      rw [h1, hs1, hr]
  obtain ⟨n1, t, hnt⟩ : ∃ x y, splitNetlocStage r = (x, y) := ⟨_, _, rfl⟩
  have htsub : ∀ ch ∈ t, ch ∈ removeUnsafe u := by
    intro ch h
    exact hrsub ch (splitNetlocStage_sub (by rw [hnt]; exact h))
  have hN : splitNetlocStage (r ++ ('?' :: (removeUnsafe q ++ ('#' :: removeUnsafe f))))
      = (n1, t ++ ('?' :: (removeUnsafe q ++ ('#' :: removeUnsafe f)))) := by
    rw [splitNetlocStage_append r '?' _ (by decide) (by decide), hnt]
  have hnothash : '#' ∉ t ++ ('?' :: removeUnsafe q) := by
    intro hmem
    rcases List.mem_append.mp hmem with h | h
    · exact (hu' _ (htsub _ h)).1 rfl
    · rcases List.mem_cons.mp h with h | h
      · exact absurd h (by decide)
      · exact (hq' _ h) rfl
  have hnotq : '?' ∉ t := fun hmem => (hu' _ (htsub _ hmem)).2 rfl
  have hnothash2 : '#' ∉ t := fun hmem => (hu' _ (htsub _ hmem)).1 rfl
  have hassoc : t ++ ('?' :: (removeUnsafe q ++ ('#' :: removeUnsafe f)))
      = (t ++ ('?' :: removeUnsafe q)) ++ ('#' :: removeUnsafe f) := by
    simp [List.append_assoc]
  have hF : splitFragmentStage (t ++ ('?' :: (removeUnsafe q ++ ('#' :: removeUnsafe f))))
      = (t ++ ('?' :: removeUnsafe q), removeUnsafe f) := by
    rw [hassoc]
    exact splitAtCharStage_append '#' _ _ hnothash
  have hFu : splitFragmentStage t = (t, []) := splitAtCharStage_not_mem '#' t hnothash2
  have hQ : splitQueryStage (t ++ ('?' :: removeUnsafe q)) = (t, removeUnsafe q) :=
    splitAtCharStage_append '?' _ _ hnotq
  have hQu : splitQueryStage t = (t, []) := splitAtCharStage_not_mem '?' t hnotq
  refine ⟨?_, ?_, ?_⟩ <;>
    simp only [urlsplitL, hclean, hS, hN, hF, hFu, hQ, hQu, hsr, hnt]

theorem urlparseL_components_eq (x y : List Char)
    (hs : (urlsplitL x).scheme = (urlsplitL y).scheme)
    (hn : (urlsplitL x).netloc = (urlsplitL y).netloc)
    (hp : (urlsplitL x).path = (urlsplitL y).path) :
    (urlparseL x).scheme = (urlparseL y).scheme
    ∧ (urlparseL x).netloc = (urlparseL y).netloc
    ∧ (urlparseL x).path = (urlparseL y).path := by
  simp only [urlparseL]
  rw [hs, hn, hp]
  by_cases hcond : usesParams.contains (urlsplitL y).scheme
      ∧ ((urlsplitL y).path).contains ';'
  · rw [if_pos hcond, if_pos hcond]
    exact ⟨rfl, rfl, rfl⟩
  · rw [if_neg hcond, if_neg hcond]
    exact ⟨rfl, rfl, rfl⟩

theorem normalize_link_core_congr (p1 p2 : ParseResult)
    (hs : p1.scheme = p2.scheme) (hn : p1.netloc = p2.netloc)
    (hp : p1.path = p2.path) :
    normalize_link_core p1 = normalize_link_core p2 := by
  unfold normalize_link_core
  rw [hs, hn, hp]

/-- C4: for links handled by the general rule, the canonical form is
`scheme://host` plus the path with any trailing slash stripped; the query
string and fragment are dropped entirely — appending `?query#fragment` to
a query/fragment-free URL never changes the canonical value, and in
particular `https://example.com/page?utm=abc#frag` and
`https://example.com/page` normalize identically. -/
theorem general_rule_canonical_form :
    (∀ link : String, normalize_link link
        = String.mk ((urlparseL link.toList).scheme ++ "://".toList
            ++ (urlparseL link.toList).netloc
            ++ rstripSlash (urlparseL link.toList).path))
    ∧ (∀ u q f : String,
        (∀ ch ∈ u.toList, ch ≠ '#' ∧ ch ≠ '?') →
        (∀ ch ∈ q.toList, ch ≠ '#') →
        normalize_link (u ++ "?" ++ q ++ "#" ++ f) = normalize_link u)
    ∧ normalize_link "https://example.com/page?utm=abc#frag"
        = normalize_link "https://example.com/page"
    ∧ normalize_link "https://example.com/page" = "https://example.com/page" := by
  refine ⟨fun link => rfl, ?_, by decide, by decide⟩
  intro u q f hu hq
  have hlist : (u ++ "?" ++ q ++ "#" ++ f).toList
      = u.toList ++ ('?' :: (q.toList ++ ('#' :: f.toList))) := by
    simp [String.toList]
  obtain ⟨hs0, hn0, hp0⟩ := urlsplitL_strip_qf u.toList q.toList f.toList hu hq
  unfold normalize_link
  rw [hlist]
  obtain ⟨hs1, hn1, hp1⟩ := urlparseL_components_eq
    (u.toList ++ ('?' :: (q.toList ++ ('#' :: f.toList)))) u.toList hs0 hn0 hp0
  exact normalize_link_core_congr _ _ hs1 hn1 hp1

/-! ## Trailing-slash and path-splitting lemmas (C3) -/

theorem rstripSlash_isPrefix (s : List Char) : rstripSlash s <+: s := by
  have h := List.reverse_prefix.mpr
    (List.dropWhile_suffix (l := s.reverse) (fun c => c = '/'))
  simpa [rstripSlash] using h

theorem rstripSlash_spec (s : List Char) :
    ∃ u, s = rstripSlash s ++ u ∧ ∀ ch ∈ u, ch = '/' := by
  refine ⟨(s.reverse.takeWhile (fun c => c = '/')).reverse, ?_, ?_⟩
  · calc s = (s.reverse).reverse := (List.reverse_reverse s).symm
      _ = ((s.reverse.takeWhile (fun c => c = '/'))
            ++ (s.reverse.dropWhile (fun c => c = '/'))).reverse := by
          rw [List.takeWhile_append_dropWhile]
      _ = rstripSlash s ++ (s.reverse.takeWhile (fun c => c = '/')).reverse := by
          rw [List.reverse_append]
          rfl
  · intro ch hch
    have hmem : ch ∈ s.reverse.takeWhile (fun c => c = '/') := by
      simpa using hch
    simpa using List.mem_takeWhile_imp hmem

theorem rstripSlash_idem (s : List Char) : rstripSlash (rstripSlash s) = rstripSlash s := by
  unfold rstripSlash
  rw [List.reverse_reverse, List.dropWhile_idempotent]

theorem rstripSlash_append_slashes (t u : List Char) (h : ∀ ch ∈ u, ch = '/') :
    rstripSlash (t ++ u) = rstripSlash t := by
  unfold rstripSlash
  rw [List.reverse_append, List.dropWhile_append_of_pos
    (by intro a ha; simpa using h a (by simpa using ha))]

theorem prefix_rstripSlash_cases {pre s : List Char} (h : pre <+: s) :
    pre <+: rstripSlash s ∨ rstripSlash s = rstripSlash pre := by
  rcases List.prefix_or_prefix_of_prefix h (rstripSlash_isPrefix s) with hp | hp
  · exact Or.inl hp
  · right
    obtain ⟨u, hu⟩ := hp
    obtain ⟨v, hv, hvall⟩ := rstripSlash_spec s
    have h2 : rstripSlash s ++ u <+: rstripSlash s ++ v := by
      rw [hu, ← hv]
      exact h
    have huv : u <+: v := (List.prefix_append_right_inj _).mp h2
    have huall : ∀ ch ∈ u, ch = '/' := fun ch hch => hvall ch (huv.subset hch)
    rw [← hu, rstripSlash_append_slashes _ _ huall, rstripSlash_idem]

theorem pySplitChar_length (c : Char) (l : List Char) :
    (pySplitChar c l).length = l.count c + 1 := by
  induction l with
  | nil => rfl
  | cons x xs ih =>
    by_cases hx : x = c
    · subst hx
      simp [pySplitChar, List.count_cons, ih]
    · have hr : pySplitChar c xs ≠ [] := by
        intro hcontra
        rw [hcontra] at ih
        simp at ih
      obtain ⟨h0, t0, ht⟩ : ∃ h0 t0, pySplitChar c xs = h0 :: t0 := by
        cases hpc : pySplitChar c xs with
        | nil => exact absurd hpc hr
        | cons a b => exact ⟨a, b, rfl⟩
      rw [ht] at ih
      simp only [List.length_cons] at ih
      simp [pySplitChar, hx, ht, List.count_cons]
      omega

theorem contains_of_count_tail {l : List Char} {c : Char} (h : 2 ≤ l.count c) :
    (l.drop 1).contains c = true := by
  cases l with
  | nil => simp at h
  | cons x xs =>
    have hxs : 1 ≤ xs.count c := by
      rw [List.count_cons] at h
      split at h <;> omega
    have hmem : c ∈ xs := List.count_pos_iff.mp (by omega)
    simpa using hmem

/-- C3: the telegram special rule — a path beginning with one of the
reserved markers `/joinchat/`, `/addstickers/`, `/s/`, `/proxy`
canonicalizes to `scheme://host` plus the full slash-stripped path (not
collapsed); otherwise a `t.me` host whose second path segment is purely
numeric collapses to `scheme://host/first-segment`; in particular
`https://t.me/examplechannel/12345` and `https://t.me/examplechannel/67890`
both normalize to `https://t.me/examplechannel`, and
`https://t.me/joinchat/ABC123` is kept whole. -/
theorem telegram_special_rule :
    (∀ link : String,
      (∃ pre ∈ special_markers, pre <+: (urlparseL link.toList).path) →
      normalize_telegram_channel link
        = String.mk ((urlparseL link.toList).scheme ++ "://".toList
            ++ (urlparseL link.toList).netloc
            ++ rstripSlash (urlparseL link.toList).path))
    ∧ (∀ link : String,
        (∀ pre ∈ special_markers, ¬ pre <+: (urlparseL link.toList).path) →
        (urlparseL link.toList).netloc = "t.me".toList →
        ∀ p0 p1 p2 rest,
          pySplitChar '/' (rstripSlash (urlparseL link.toList).path)
            = p0 :: p1 :: p2 :: rest →
          pyIsDigit p2 = true →
          normalize_telegram_channel link
            = String.mk ((urlparseL link.toList).scheme ++ "://".toList
                ++ "t.me".toList ++ '/' :: p1))
    ∧ normalize_telegram_channel "https://t.me/examplechannel/12345"
        = "https://t.me/examplechannel"
    ∧ normalize_telegram_channel "https://t.me/examplechannel/67890"
        = "https://t.me/examplechannel"
    ∧ normalize_telegram_channel "https://t.me/joinchat/ABC123"
        = "https://t.me/joinchat/ABC123" := by
  refine ⟨?_, ?_, by decide, by decide, by decide⟩
  · rintro link ⟨pre, hmem, hpre⟩
    rcases prefix_rstripSlash_cases hpre with hcase | hcase
    · have hany : special_markers.any
          (fun q => q.isPrefixOf (rstripSlash (urlparseL link.toList).path)) = true := by
        rw [List.any_eq_true]
        exact ⟨pre, hmem, List.isPrefixOf_iff_prefix.mpr hcase⟩
      simp only [normalize_telegram_channel, telegram_channel_core]
      rw [if_pos hany]
    · simp only [special_markers, List.mem_cons, List.not_mem_nil, or_false] at hmem
      rcases hmem with rfl | rfl | rfl | rfl
      · have hpath : rstripSlash (urlparseL link.toList).path = "/joinchat".toList := by
          rw [hcase]; rfl
        simp only [normalize_telegram_channel, telegram_channel_core, hpath]
        rw [if_neg (by decide), if_neg (fun hco => absurd hco.2 (by decide))]
      · have hpath : rstripSlash (urlparseL link.toList).path = "/addstickers".toList := by
          rw [hcase]; rfl
        simp only [normalize_telegram_channel, telegram_channel_core, hpath]
        rw [if_neg (by decide), if_neg (fun hco => absurd hco.2 (by decide))]
      · have hpath : rstripSlash (urlparseL link.toList).path = "/s".toList := by
          rw [hcase]; rfl
        simp only [normalize_telegram_channel, telegram_channel_core, hpath]
        rw [if_neg (by decide), if_neg (fun hco => absurd hco.2 (by decide))]
      · have hpath : rstripSlash (urlparseL link.toList).path = "/proxy".toList := by
          rw [hcase]; rfl
        simp only [normalize_telegram_channel, telegram_channel_core, hpath]
        rw [if_pos (by decide)]
  · intro link hnot hnetloc p0 p1 p2 rest hsplit hdigit
    have hnostrip : special_markers.any
        (fun q => q.isPrefixOf (rstripSlash (urlparseL link.toList).path)) = false := by
      rw [List.any_eq_false]
      intro q hq hq2
      exact hnot q hq ((List.isPrefixOf_iff_prefix.mp hq2).trans
        (rstripSlash_isPrefix (urlparseL link.toList).path))
    have hcount : 2 ≤ (rstripSlash (urlparseL link.toList).path).count '/' := by
      have hlen := pySplitChar_length '/' (rstripSlash (urlparseL link.toList).path)
      rw [hsplit] at hlen
      simp only [List.length_cons] at hlen
      omega
    have hcont : ((rstripSlash (urlparseL link.toList).path).drop 1).contains '/' = true :=
      contains_of_count_tail hcount
    simp only [normalize_telegram_channel, telegram_channel_core]
    rw [if_neg (by rw [hnostrip]; simp), if_pos ⟨hnetloc, hcont⟩]
    simp only [hsplit]
    rw [if_pos hdigit, hnetloc]

/-! ## Concrete witnesses -/

/-- Witness for C1 at a concrete duplicate and a concrete pair of groups. -/
theorem pair_canonical_group_unique_witness :
    storeHasPair [mkRecord "https://example.com/a" demoChatA demoSender "t0"]
        (canonicalOf "https://example.com/a") demoChatA.id = true
    ∧ demoChatA.id ≠ demoChatB.id
    ∧ save_links_to_db demoClock ["https://example.com/a"] demoChatA demoSender
        [mkRecord "https://example.com/a" demoChatA demoSender "t0"]
        = (0, [mkRecord "https://example.com/a" demoChatA demoSender "t0"]) :=
  ⟨by decide, by decide,
   (pair_canonical_group_unique demoClock demoClock "https://example.com/a" demoChatA
      demoChatB demoSender [mkRecord "https://example.com/a" demoChatA demoSender "t0"]
      (by decide) (by decide)).1⟩

/-- Witness for C3: a numeric message suffix collapses, and a reserved
marker path is kept whole. -/
theorem telegram_special_rule_witness :
    normalize_telegram_channel "https://t.me/mychannel/777" = "https://t.me/mychannel"
    ∧ normalize_telegram_channel "https://t.me/joinchat/XYZ" = "https://t.me/joinchat/XYZ" :=
  ⟨by
    have h := telegram_special_rule.2.1 "https://t.me/mychannel/777"
      (by decide) (by decide) [] "mychannel".toList "777".toList [] (by decide) (by decide)
    exact h.trans (by decide),
   by
    have h := telegram_special_rule.1 "https://t.me/joinchat/XYZ"
      ⟨"/joinchat/".toList, by decide, by decide⟩
    exact h.trans (by decide)⟩

/-- Witness for C4: appending a query and fragment never changes the
canonical value. -/
theorem general_rule_canonical_form_witness :
    normalize_link ("https://foo.example/p" ++ "?" ++ "a=1" ++ "#" ++ "top")
      = normalize_link "https://foo.example/p" :=
  general_rule_canonical_form.2.1 "https://foo.example/p" "a=1" "top"
    (by decide) (by decide)

/-- Witness for C5 at a raw string with empty scheme and host. -/
theorem unparseable_link_fallback_witness :
    (urlparseL "hello world".toList).scheme = []
    ∧ (urlparseL "hello world".toList).netloc = []
    ∧ normalize_link "hello world"
        = String.mk ("://".toList ++ rstripSlash (urlparseL "hello world".toList).path) :=
  ⟨rfl, rfl, (unparseable_link_fallback "hello world" rfl rfl).1⟩

/-- Witness for C6 at concrete non-empty text and caption. -/
theorem extraction_order_witness :
    extract_all_links_from_message
        (.mk (some "x") [] (some "y") []
          (some ⟨[[⟨some "https://w.example"⟩]]⟩) (some demoParent))
      = extract_links_from_entities "x" [] ++ extract_links_from_entities "y" []
        ++ extract_links_from_buttons ⟨[[⟨some "https://w.example"⟩]]⟩
        ++ extract_all_links_from_message demoParent :=
  extraction_order_and_recursion.2.1 "x" "y" [] []
    ⟨[[⟨some "https://w.example"⟩]]⟩ demoParent (by decide) (by decide)

/-- Witness for C7 at a message extracting no links. -/
theorem coordinator_frame_witness :
    extract_all_links_from_message demoEmptyMsg = []
    ∧ handle_all_messages demoClock (some demoEmptyMsg) demoChatA demoSender []
        = ([], none) :=
  ⟨rfl, (coordinator_frame_and_signal demoClock demoChatA demoSender []
      demoEmptyMsg).2.1 rfl⟩

/-- Witness for C8 at a concrete faulting run. -/
theorem connection_close_paths_witness :
    (save_links_to_db_run demoClock (fun _ => true) ["https://t.me/abc"]
        demoChatB demoSender []).result = none
    ∧ (save_links_to_db_run demoClock (fun _ => true) ["https://t.me/abc"]
        demoChatB demoSender []).connClosed = false :=
  ⟨rfl, (connection_close_paths demoClock demoChatB demoSender).2
      (fun _ => true) ["https://t.me/abc"] [] rfl⟩

/-- Witness for C9 at the empty (falsy) token. -/
theorem startup_missing_token_witness :
    ((some "" : Option String) = none ∨ (some "" : Option String) = some "")
    ∧ startup_token_check (some "") = .exitProcess tokenDiagnostic 0 :=
  ⟨Or.inr rfl, startup_missing_token_behavior (some "") (Or.inr rfl)⟩

/-- Witness for C10 at two message links of the same channel. -/
theorem within_batch_dedup_witness :
    canonicalOf "https://t.me/chan/1" = canonicalOf "https://t.me/chan/2"
    ∧ save_links_to_db demoClock ["https://t.me/chan/1", "https://t.me/chan/2"]
        demoChatA demoSender []
        = (1, [mkRecord "https://t.me/chan/1" demoChatA demoSender (demoClock 0)]) :=
  ⟨by decide, (within_batch_dedup demoClock demoChatA demoSender
      "https://t.me/chan/1" "https://t.me/chan/2" (by decide)).2⟩

end CrawlerBot
